import Mathlib

/-!
Verification development for the height-gauge data-acquisition application
(`src/app.py`).  The embedding models:

* the frame parser `parse_value` (regex `[-+]?\d+(?:\.\d+)?` searched in the
  stripped input, converted to a number and accepted only inside the sanity
  bounds 0..50) as an executable scanner over `List Char` with exact
  rational values;
* the record store (SQLite table `pellets` with columns `p1..p5`, `avg`,
  `min`, `max`, `done`) as a map `Nat → Option Pellet`, with `save_point`
  and `finalize_pellet` translated from the corresponding functions;
* the session singleton `SessionState` and the request handlers
  `api_set_point`, `api_finish_pellet`, `api_start_pellet` and the
  queue-draining part of `api_status` as pure state transformers.

Numbers are modelled as exact rationals; timestamps as opaque strings
supplied by the caller of a step.
-/

/-! ### Frame parser (`parse_value`, src/app.py lines 169-184) -/

/-- Characters removed by Python's `str.strip()` (ASCII whitespace). -/
def isPySpace (c : Char) : Bool :=
  c == ' ' || c == '\t' || c == '\n' || c == '\r' || c == '\x0b' || c == '\x0c'

/-- `s.strip()`: drop leading and trailing whitespace. -/
def pyStrip (l : List Char) : List Char :=
  ((l.dropWhile isPySpace).reverse.dropWhile isPySpace).reverse

/-- Sign characters accepted by the regex prefix `[-+]?`. -/
def isSign (c : Char) : Bool :=
  c == '+' || c == '-'

/-- Greedy match of the optional fractional part `(?:\.\d+)?` at the head of
the input; returns the matched characters (empty if no fraction matches). -/
def matchFrac : List Char → List Char
  | [] => []
  | c :: cs =>
    if c = '.' then
      if cs.takeWhile Char.isDigit = [] then [] else '.' :: cs.takeWhile Char.isDigit
    else []

/-- Greedy match of `\d+(?:\.\d+)?` at the head of the input. -/
def matchUnsigned (l : List Char) : Option (List Char) :=
  if l.takeWhile Char.isDigit = [] then none
  else some (l.takeWhile Char.isDigit ++ matchFrac (l.dropWhile Char.isDigit))

/-- Match of the full pattern `[-+]?\d+(?:\.\d+)?` anchored at the head of
the input, as Python's `re` would attempt it at one position. -/
def matchAt : List Char → Option (List Char)
  | [] => none
  | c :: cs =>
    if isSign c then (matchUnsigned cs).map (fun t => c :: t)
    else matchUnsigned (c :: cs)

/-- `VAL_RE.search`: the first (leftmost) match of the numeric-token regex
anywhere in the input. -/
def firstTok : List Char → Option (List Char)
  | [] => none
  | c :: cs =>
    match matchAt (c :: cs) with
    | some t => some t
    | none => firstTok cs

/-- Value of a run of decimal digit characters. -/
def digitsVal (ds : List Char) : Nat :=
  ds.foldl (fun a c => 10 * a + (c.toNat - 48)) 0

/-- Value of the fractional digits `fs` read after a decimal point. -/
def fracVal (fs : List Char) : ℚ :=
  (digitsVal fs : ℚ) / (10 : ℚ) ^ fs.length

/-- Numeric value of an unsigned matched token (digits, optional `.digits`). -/
def unsignedVal (t : List Char) : ℚ :=
  match t.dropWhile Char.isDigit with
  | '.' :: fs => (digitsVal (t.takeWhile Char.isDigit) : ℚ) + fracVal fs
  | _ => (digitsVal (t.takeWhile Char.isDigit) : ℚ)

/-- `float(m.group(0))`: numeric value of a matched token, with sign. -/
def tokVal : List Char → ℚ
  | '-' :: r => - unsignedVal r
  | '+' :: r => unsignedVal r
  | r => unsignedVal r

/-- `parse_value` (src/app.py lines 171-184): strip the line, search for the
first numeric token, convert it, and accept it only within the sanity bounds
`0.0 <= val <= 50.0`; every other outcome is `None`. -/
def parse_value (s : String) : Option ℚ :=
  if pyStrip s.data = [] then none
  else
    match firstTok (pyStrip s.data) with
    | none => none
    | some tok =>
      if 0 ≤ tokVal tok ∧ tokVal tok ≤ 50 then some (tokVal tok) else none

/-! ### Record store (`pellets` table, `save_point`, `finalize_pellet`) -/

/-- One row of the `pellets` table (the columns the core logic touches).
A freshly inserted row has all measurement and aggregate columns NULL and
`done = 0`. -/
structure Pellet where
  p1 : Option ℚ := none
  p2 : Option ℚ := none
  p3 : Option ℚ := none
  p4 : Option ℚ := none
  p5 : Option ℚ := none
  avg : Option ℚ := none
  min : Option ℚ := none
  max : Option ℚ := none
  done : Bool := false
deriving DecidableEq

/-- Write slot column `p{idx}` of one row (the UPDATE in `save_point`). -/
def setSlot (idx : Int) (v : ℚ) (r : Pellet) : Pellet :=
  if idx = 1 then { r with p1 := some v }
  else if idx = 2 then { r with p2 := some v }
  else if idx = 3 then { r with p3 := some v }
  else if idx = 4 then { r with p4 := some v }
  else if idx = 5 then { r with p5 := some v }
  else r

/-- Read slot column `p{idx}` of one row. -/
def slotGet (idx : Int) (r : Pellet) : Option ℚ :=
  if idx = 1 then r.p1
  else if idx = 2 then r.p2
  else if idx = 3 then r.p3
  else if idx = 4 then r.p4
  else if idx = 5 then r.p5
  else none

/-- The record store: rows of the `pellets` table keyed by id. -/
def Store : Type := Nat → Option Pellet

/-- `save_point(pid, idx, val)` (src/app.py lines 457-462): update column
`p{idx}` of the row with id `pid`; an UPDATE whose WHERE clause matches no
row changes nothing. -/
def save_point (pid : Nat) (idx : Int) (val : ℚ) (st : Store) : Store :=
  fun q => if q = pid then (st q).map (setSlot idx val) else st q

/-- The list `nums` of `finalize_pellet`: the values of the non-NULL slot
columns, in column order. -/
def presentVals (r : Pellet) : List ℚ :=
  [r.p1, r.p2, r.p3, r.p4, r.p5].filterMap id

/-- The row transformation of `finalize_pellet` (src/app.py lines 464-480):
aggregates over the non-empty slots (NULL if all are empty) and `done = 1`. -/
def aggregate (r : Pellet) : Pellet :=
  if presentVals r = [] then
    { r with avg := none, min := none, max := none, done := true }
  else
    { r with
      avg := some ((presentVals r).sum / ((presentVals r).length : ℚ)),
      min := (presentVals r).min?,
      max := (presentVals r).max?,
      done := true }

/-- `finalize_pellet(pid)`: apply `aggregate` to the row with id `pid`. -/
def finalize_pellet (pid : Nat) (st : Store) : Store :=
  fun q => if q = pid then (st q).map aggregate else st q

/-- Completion flag and aggregate columns of a row, used to state that an
operation leaves them untouched. -/
def aggView (r : Pellet) : Option ℚ × Option ℚ × Option ℚ × Bool :=
  (r.avg, r.min, r.max, r.done)

/-! ### Session singleton and request handlers -/

/-- `SessionState` (src/app.py lines 187-209): the fields of the process-wide
session object. -/
structure Session where
  active : Bool
  pellet_id : Option Nat
  next_index : Int
  last_value : Option ℚ
  last_time : Option String
deriving DecidableEq

/-- `SessionState.reset` / initial state / `stop`. -/
def Session.init : Session :=
  { active := false, pellet_id := none, next_index := 1,
    last_value := none, last_time := none }

/-- `SessionState.start(pellet_id)`. -/
def Session.start (pid : Nat) : Session :=
  { active := true, pellet_id := some pid, next_index := 1,
    last_value := none, last_time := none }

/-- The state the request handlers act on: the session singleton plus the
record store. -/
structure AppState where
  session : Session
  store : Store

/-- `api_set_point` (src/app.py lines 327-352).  `value` is the outcome of
converting the request's value field with `float(...)` (after the comma and
leading-dot normalisation); `none` models a failed conversion.  The checks
happen in source order: value conversion, then index range, then an active
session; on success the point is saved and `next_index` advanced. -/
def api_set_point (idx : Int) (value : Option ℚ) (st : AppState) :
    Except String Int × AppState :=
  match value with
  | none => (.error "invalid value", st)
  | some val =>
    if ¬(1 ≤ idx ∧ idx ≤ 5) then (.error "idx must be 1..5", st)
    else if st.session.active = false ∨ st.session.pellet_id = none then
      (.error "no active pellet", st)
    else
      match st.session.pellet_id with
      | none => (.error "no active pellet", st)
      | some pid =>
        let n := st.session.next_index
        let n1 := if n = idx ∧ n < 5 then n + 1
                  else if n < idx ∧ idx ≤ 5 then min (idx + 1) 6 else n
        (.ok n1,
         { session := { st.session with next_index := n1 },
           store := save_point pid idx val st.store })

/-- `api_finish_pellet` (src/app.py lines 355-366): rejected while no pellet
is active; otherwise finalizes the active pellet and resets the session. -/
def api_finish_pellet (st : AppState) : Except String Nat × AppState :=
  if st.session.active = false ∨ st.session.pellet_id = none then
    (.error "no active pellet", st)
  else
    match st.session.pellet_id with
    | none => (.error "no active pellet", st)
    | some pid =>
      (.ok pid, { session := Session.init, store := finalize_pellet pid st.store })

/-- One iteration of the queue-draining loop of `api_status`
(src/app.py lines 428-445), processing one device-delivered value `val` at
wall-clock time `t`: record it as `last_value`/`last_time`; if a pellet is
active with `next_index <= 5`, save the value into the next slot and advance,
finalizing and resetting the session when the index passes 5.  A session that
is active without a pellet id saves into no row (the UPDATE matches
nothing). -/
def statusStep (t : String) (st : AppState) (val : ℚ) : AppState :=
  let s0 := { st.session with last_value := some val, last_time := some t }
  if s0.active = true ∧ s0.next_index ≤ 5 then
    match s0.pellet_id with
    | none =>
      if s0.next_index + 1 > 5 then { session := Session.init, store := st.store }
      else { session := { s0 with next_index := s0.next_index + 1 }, store := st.store }
    | some pid =>
      let store1 := save_point pid s0.next_index val st.store
      if s0.next_index + 1 > 5 then
        { session := Session.init, store := finalize_pellet pid store1 }
      else { session := { s0 with next_index := s0.next_index + 1 }, store := store1 }
  else { st with session := s0 }

/-- The queue-draining part of `api_status`: drain the delivery queue in FIFO
order, processing every value with `statusStep`; every drained value is
appended to the `applied` list of the response. -/
def api_status (queue : List ℚ) (t : String) (st : AppState) : AppState × List ℚ :=
  (queue.foldl (statusStep t) st, queue)

/-- `api_start_pellet` (src/app.py lines 400-419): insert a fresh row (all
slots NULL, `done = 0`) under a fresh id `pid` and start the session on it. -/
def api_start_pellet (pid : Nat) (st : AppState) : AppState :=
  { session := Session.start pid,
    store := fun q => if q = pid then some {} else st.store q }

/-- The empty application state: idle session, empty store. -/
def st0 : AppState :=
  { session := Session.init, store := fun _ => none }

/-- The state right after starting pellet 1 in the empty state. -/
def st1 : AppState := api_start_pellet 1 st0

/-! ### Parser lemmas: stripping whitespace does not change the first token -/

lemma isPySpace_props {c : Char} (h : isPySpace c = true) :
    isSign c = false ∧ c.isDigit = false ∧ c ≠ '.' := by
  simp only [isPySpace, Bool.or_eq_true, beq_iff_eq] at h
  rcases h with ((((h | h) | h) | h) | h) | h <;> subst h <;>
    exact ⟨by decide, by decide, by decide⟩

lemma matchAt_not_start {c : Char} (cs : List Char) (h1 : isSign c = false)
    (h2 : c.isDigit = false) : matchAt (c :: cs) = none := by
  simp [matchAt, h1, matchUnsigned, List.takeWhile_cons, h2]

lemma firstTok_cons_space {c : Char} {cs : List Char} (h : isPySpace c = true) :
    firstTok (c :: cs) = firstTok cs := by
  obtain ⟨h1, h2, _⟩ := isPySpace_props h
  show (match matchAt (c :: cs) with
        | some t => some t
        | none => firstTok cs) = firstTok cs
  rw [matchAt_not_start cs h1 h2]

lemma firstTok_dropWhile (l : List Char) :
    firstTok (l.dropWhile isPySpace) = firstTok l := by
  induction l with
  | nil => rfl
  | cons c cs ih =>
    by_cases h : isPySpace c = true
    · rw [List.dropWhile_cons, if_pos h, ih, firstTok_cons_space h]
    · rw [List.dropWhile_cons, if_neg h]

lemma takeWhile_append_nil (p : Char → Bool) (xs ys : List Char)
    (h : ys.takeWhile p = []) : (xs ++ ys).takeWhile p = xs.takeWhile p := by
  induction xs with
  | nil => simpa using h
  | cons c cs ih =>
    by_cases hc : p c = true
    · simp [List.cons_append, List.takeWhile_cons, hc, ih]
    · simp [List.cons_append, List.takeWhile_cons, hc]

lemma dropWhile_append_keep (p : Char → Bool) (xs ys : List Char)
    (h : ys.takeWhile p = []) : (xs ++ ys).dropWhile p = xs.dropWhile p ++ ys := by
  induction xs with
  | nil =>
    simp only [List.nil_append]
    cases ys with
    | nil => rfl
    | cons d ds =>
      rw [List.takeWhile_cons] at h
      by_cases hd : p d = true
      · rw [if_pos hd] at h; exact absurd h (by simp)
      · rw [List.dropWhile_cons, if_neg hd]; rfl
  | cons c cs ih =>
    by_cases hc : p c = true
    · simp [List.cons_append, List.dropWhile_cons, hc, ih]
    · simp [List.cons_append, List.dropWhile_cons, hc]

lemma takeWhile_digit_of_space (ys : List Char) (h : ∀ c ∈ ys, isPySpace c = true) :
    ys.takeWhile Char.isDigit = [] := by
  cases ys with
  | nil => rfl
  | cons d ds =>
    have hd := (isPySpace_props (h d (by simp))).2.1
    rw [List.takeWhile_cons, if_neg (by simp [hd])]

lemma matchFrac_append (xs ys : List Char) (h : ∀ c ∈ ys, isPySpace c = true) :
    matchFrac (xs ++ ys) = matchFrac xs := by
  cases xs with
  | nil =>
    cases ys with
    | nil => rfl
    | cons d ds =>
      have hd := (isPySpace_props (h d (by simp))).2.2
      simp [matchFrac, hd]
  | cons c cs =>
    by_cases hc : c = '.'
    · subst hc
      have ht := takeWhile_digit_of_space ys h
      simp only [List.cons_append, matchFrac,
        takeWhile_append_nil Char.isDigit cs ys ht, if_true]
    · simp [matchFrac, hc]

lemma matchUnsigned_append (xs ys : List Char) (h : ∀ c ∈ ys, isPySpace c = true) :
    matchUnsigned (xs ++ ys) = matchUnsigned xs := by
  have ht := takeWhile_digit_of_space ys h
  unfold matchUnsigned
  rw [takeWhile_append_nil Char.isDigit xs ys ht,
    dropWhile_append_keep Char.isDigit xs ys ht,
    matchFrac_append (xs.dropWhile Char.isDigit) ys h]

lemma matchAt_append (xs ys : List Char) (h : ∀ c ∈ ys, isPySpace c = true) :
    matchAt (xs ++ ys) = matchAt xs := by
  cases xs with
  | nil =>
    simp only [List.nil_append]
    cases ys with
    | nil => rfl
    | cons d ds =>
      obtain ⟨h1, h2, _⟩ := isPySpace_props (h d (by simp))
      exact matchAt_not_start ds h1 h2
  | cons c cs =>
    rw [List.cons_append]
    show (if isSign c = true then (matchUnsigned (cs ++ ys)).map (fun t => c :: t)
          else matchUnsigned (c :: (cs ++ ys))) =
         (if isSign c = true then (matchUnsigned cs).map (fun t => c :: t)
          else matchUnsigned (c :: cs))
    by_cases hc : isSign c = true
    · rw [if_pos hc, if_pos hc, matchUnsigned_append cs ys h]
    · rw [if_neg hc, if_neg hc, ← List.cons_append,
        matchUnsigned_append (c :: cs) ys h]

lemma firstTok_append (xs ys : List Char) (h : ∀ c ∈ ys, isPySpace c = true) :
    firstTok (xs ++ ys) = firstTok xs := by
  induction xs with
  | nil =>
    simp only [List.nil_append]
    induction ys with
    | nil => rfl
    | cons d ds ihd =>
      rw [firstTok_cons_space (h d (by simp))]
      exact ihd (fun c hc => h c (by simp [hc]))
  | cons c cs ih =>
    rw [List.cons_append]
    have hm : matchAt (c :: (cs ++ ys)) = matchAt (c :: cs) := by
      rw [← List.cons_append]; exact matchAt_append (c :: cs) ys h
    show (match matchAt (c :: (cs ++ ys)) with
          | some t => some t
          | none => firstTok (cs ++ ys)) =
         (match matchAt (c :: cs) with
          | some t => some t
          | none => firstTok cs)
    rw [hm]
    cases matchAt (c :: cs) with
    | some t => rfl
    | none => exact ih

lemma firstTok_pyStrip (l : List Char) : firstTok (pyStrip l) = firstTok l := by
  unfold pyStrip
  rw [← firstTok_dropWhile l]
  have hsplit := congrArg List.reverse
    (List.takeWhile_append_dropWhile (p := isPySpace) (l := (l.dropWhile isPySpace).reverse))
  rw [List.reverse_append, List.reverse_reverse] at hsplit
  have hsp : ∀ c ∈ ((l.dropWhile isPySpace).reverse.takeWhile isPySpace).reverse,
      isPySpace c = true := by
    intro c hc
    rw [List.mem_reverse] at hc
    exact List.mem_takeWhile_imp hc
  calc firstTok (((l.dropWhile isPySpace).reverse.dropWhile isPySpace).reverse)
      = firstTok (((l.dropWhile isPySpace).reverse.dropWhile isPySpace).reverse ++
          ((l.dropWhile isPySpace).reverse.takeWhile isPySpace).reverse) :=
        (firstTok_append _ _ hsp).symm
    _ = firstTok (l.dropWhile isPySpace) := by rw [hsplit]

/-- The observable behaviour of `parse_value`: find the first numeric token of
the input (stripping changes nothing), accept it inside the bounds. -/
lemma parse_value_eq (s : String) :
    parse_value s =
      match firstTok s.data with
      | none => none
      | some tok =>
        if 0 ≤ tokVal tok ∧ tokVal tok ≤ 50 then some (tokVal tok) else none := by
  unfold parse_value
  by_cases h0 : pyStrip s.data = []
  · rw [if_pos h0]
    have hft : firstTok s.data = none := by
      rw [← firstTok_pyStrip, h0]; rfl
    rw [hft]
  · rw [if_neg h0, firstTok_pyStrip]

/-! ### Store and session lemmas -/

lemma slotGet_setSlot (idx : Int) (v : ℚ) (r : Pellet) (h1 : 1 ≤ idx) (h5 : idx ≤ 5) :
    slotGet idx (setSlot idx v r) = some v := by
  have hc : idx = 1 ∨ idx = 2 ∨ idx = 3 ∨ idx = 4 ∨ idx = 5 := by omega
  rcases hc with h | h | h | h | h <;> subst h <;> rfl

lemma slotGet_aggregate (idx : Int) (r : Pellet) :
    slotGet idx (aggregate r) = slotGet idx r := by
  unfold aggregate slotGet
  split_ifs <;> rfl

lemma aggView_setSlot (idx : Int) (v : ℚ) (r : Pellet) :
    aggView (setSlot idx v r) = aggView r := by
  unfold setSlot aggView
  split_ifs <;> rfl

lemma setSlot_setSlot (idx : Int) (a b : ℚ) (r : Pellet) :
    setSlot idx a (setSlot idx b r) = setSlot idx a r := by
  unfold setSlot
  split_ifs <;> rfl

lemma statusStep_no_assign (t : String) (st : AppState) (v : ℚ)
    (h : st.session.active = false ∨ 5 < st.session.next_index) :
    statusStep t st v =
      { st with session :=
          { st.session with last_value := some v, last_time := some t } } := by
  obtain ⟨⟨a, p, ni, lv, lt0⟩, store⟩ := st
  simp only at h
  unfold statusStep
  rw [if_neg]
  rintro ⟨h1, h2⟩
  rcases h with h | h
  · simp only at h1; rw [h] at h1; exact Bool.false_ne_true h1
  · simp only at h2; omega

lemma foldl_statusStep_no_assign (q : List ℚ) (t : String) (st : AppState)
    (h : st.session.active = false ∨ 5 < st.session.next_index) :
    q.foldl (statusStep t) st =
      if q = [] then st
      else { st with session :=
        { st.session with last_value := q.getLast?, last_time := some t } } := by
  induction q generalizing st with
  | nil => rfl
  | cons v q2 ih =>
    rw [List.foldl_cons, statusStep_no_assign t st v h, if_neg (by simp)]
    have hq2 := ih { st with session :=
        { st.session with last_value := some v, last_time := some t } } h
    rw [hq2]
    cases q2 with
    | nil => rfl
    | cons w q3 => rw [if_neg (by simp), List.getLast?_cons_cons]

/-! ### Claim theorems -/

/-- C5: for every index outside 1..5 and every parsable value, `set_manual_point`
is rejected with the index-out-of-range error and returns the state completely
unchanged; an unparsable value is likewise rejected without any state change. -/
theorem set_point_invalid_rejected (idx : Int) (v : ℚ) (st : AppState)
    (h : ¬(1 ≤ idx ∧ idx ≤ 5)) :
    api_set_point idx (some v) st = (.error "idx must be 1..5", st) ∧
    api_set_point idx none st = (.error "invalid value", st) := by
  constructor
  · show (if ¬(1 ≤ idx ∧ idx ≤ 5) then ((.error "idx must be 1..5" : Except String Int), st)
          else _) = (.error "idx must be 1..5", st)
    rw [if_pos h]
  · rfl

/-- C5 witness: `set_manual_point(6, 1.0)` on a concrete state. -/
theorem set_point_invalid_rejected_witness :
    api_set_point 6 (some 1) st0 = (.error "idx must be 1..5", st0) ∧
    api_set_point 6 none st0 = (.error "invalid value", st0) :=
  set_point_invalid_rejected 6 1 st0 (by omega)

/-- C6: `finish()` invoked while the session is IDLE is rejected with the
"no active pellet" reason and has no side effects: the returned state is the
input state, so no record in the store is modified. -/
theorem finish_idle_rejected (st : AppState) (h : st.session.active = false) :
    api_finish_pellet st = (.error "no active pellet", st) := by
  unfold api_finish_pellet
  rw [if_pos (Or.inl h)]

/-- C6 witness: `finish()` on the concrete idle state. -/
theorem finish_idle_rejected_witness :
    api_finish_pellet st0 = (.error "no active pellet", st0) :=
  finish_idle_rejected st0 rfl

/-- C8: `save_slot` is idempotent per slot, and a later write to the same slot
overwrites the earlier one (last write wins): repeating `save_point pid idx v`
leaves the store exactly as one call does, and writing `w` after `v` leaves
the store exactly as writing `w` alone does. -/
theorem save_point_idempotent_last_write_wins (pid : Nat) (idx : Int) (v w : ℚ)
    (st : Store) :
    save_point pid idx v (save_point pid idx v st) = save_point pid idx v st ∧
    save_point pid idx w (save_point pid idx v st) = save_point pid idx w st := by
  constructor <;>
  · funext q
    unfold save_point
    by_cases hq : q = pid
    · simp [hq, Option.map_map, Function.comp_def, setSlot_setSlot]
    · simp [hq]

/-- C9: `set_manual_point` never finalizes: for every index, value and state,
the call leaves every record's completion flag and aggregate columns
(`avg`, `min`, `max`, `done`) unchanged. -/
theorem set_point_never_finalizes (idx : Int) (value : Option ℚ) (st : AppState)
    (pid : Nat) :
    ((api_set_point idx value st).2.store pid).map aggView =
      (st.store pid).map aggView := by
  cases value with
  | none => rfl
  | some v =>
    show ((if ¬(1 ≤ idx ∧ idx ≤ 5) then ((.error "idx must be 1..5" : Except String Int), st)
          else if st.session.active = false ∨ st.session.pellet_id = none then
            (.error "no active pellet", st)
          else
            match st.session.pellet_id with
            | none => (.error "no active pellet", st)
            | some pid =>
              (.ok (if st.session.next_index = idx ∧ st.session.next_index < 5 then
                      st.session.next_index + 1
                    else if st.session.next_index < idx ∧ idx ≤ 5 then min (idx + 1) 6
                    else st.session.next_index),
               { session := { st.session with
                   next_index :=
                     if st.session.next_index = idx ∧ st.session.next_index < 5 then
                       st.session.next_index + 1
                     else if st.session.next_index < idx ∧ idx ≤ 5 then min (idx + 1) 6
                     else st.session.next_index },
                 store := save_point pid idx v st.store })).2.store pid).map aggView =
      (st.store pid).map aggView
    by_cases h1 : ¬(1 ≤ idx ∧ idx ≤ 5)
    · rw [if_pos h1]
    · rw [if_neg h1]
      by_cases h2 : st.session.active = false ∨ st.session.pellet_id = none
      · rw [if_pos h2]
      · rw [if_neg h2]
        cases hpid : st.session.pellet_id with
        | none => rfl
        | some pid0 =>
          show ((save_point pid0 idx v st.store) pid).map aggView =
            (st.store pid).map aggView
          unfold save_point
          by_cases hq : pid = pid0
          · rw [if_pos hq]
            cases st.store pid <;> simp [aggView_setSlot]
          · rw [if_neg hq]

/-- C4: for an ACTIVE session with `next_index = n` and a valid index and
parsable value, `set_manual_point(index, v)` persists `v` into slot `index`
regardless of `n`, and sets `next_index` to `n+1` when `index = n ∧ n < 5`,
to `min (index+1) 6` when `index > n`, and leaves it unchanged otherwise. -/
theorem set_manual_point_advance (idx n : Int) (v : ℚ) (pid : Nat) (st : AppState)
    (hact : st.session.active = true) (hpid : st.session.pellet_id = some pid)
    (hn : st.session.next_index = n) (h1 : 1 ≤ idx) (h5 : idx ≤ 5) :
    api_set_point idx (some v) st =
      (.ok (if idx = n ∧ n < 5 then n + 1 else if n < idx then min (idx + 1) 6 else n),
       { session := { st.session with
           next_index := if idx = n ∧ n < 5 then n + 1
                         else if n < idx then min (idx + 1) 6 else n },
         store := save_point pid idx v st.store }) ∧
    ∀ r, st.store pid = some r →
      ∃ r2, (api_set_point idx (some v) st).2.store pid = some r2 ∧
        slotGet idx r2 = some v := by
  subst hn
  have hne : ¬¬(1 ≤ idx ∧ idx ≤ 5) := not_not_intro ⟨h1, h5⟩
  have hor : ¬(st.session.active = false ∨ st.session.pellet_id = none) := by
    rintro (h | h)
    · rw [hact] at h; exact absurd h (by decide)
    · rw [hpid] at h; exact Option.noConfusion h
  have hif : (if st.session.next_index = idx ∧ st.session.next_index < 5
                then st.session.next_index + 1
              else if st.session.next_index < idx ∧ idx ≤ 5 then min (idx + 1) 6
              else st.session.next_index)
           = (if idx = st.session.next_index ∧ st.session.next_index < 5
                then st.session.next_index + 1
              else if st.session.next_index < idx then min (idx + 1) 6
              else st.session.next_index) := by
    split_ifs <;> omega
  have hmain : api_set_point idx (some v) st =
      (.ok (if idx = st.session.next_index ∧ st.session.next_index < 5
              then st.session.next_index + 1
            else if st.session.next_index < idx then min (idx + 1) 6
            else st.session.next_index),
       { session := { st.session with
           next_index := if idx = st.session.next_index ∧ st.session.next_index < 5
                           then st.session.next_index + 1
                         else if st.session.next_index < idx then min (idx + 1) 6
                         else st.session.next_index },
         store := save_point pid idx v st.store }) := by
    show (if ¬(1 ≤ idx ∧ idx ≤ 5) then ((.error "idx must be 1..5" : Except String Int), st)
          else if st.session.active = false ∨ st.session.pellet_id = none then
            (.error "no active pellet", st)
          else
            match st.session.pellet_id with
            | none => (.error "no active pellet", st)
            | some pid2 =>
              (.ok (if st.session.next_index = idx ∧ st.session.next_index < 5 then
                      st.session.next_index + 1
                    else if st.session.next_index < idx ∧ idx ≤ 5 then min (idx + 1) 6
                    else st.session.next_index),
               { session := { st.session with
                   next_index :=
                     if st.session.next_index = idx ∧ st.session.next_index < 5 then
                       st.session.next_index + 1
                     else if st.session.next_index < idx ∧ idx ≤ 5 then min (idx + 1) 6
                     else st.session.next_index },
                 store := save_point pid2 idx v st.store })) = _
    rw [if_neg hne, if_neg hor, hpid, hif]
  refine ⟨by rw [hmain], ?_⟩
  intro r hr
  refine ⟨setSlot idx v r, ?_, slotGet_setSlot idx v r h1 h5⟩
  rw [hmain]
  show save_point pid idx v st.store pid = some (setSlot idx v r)
  unfold save_point
  rw [if_pos rfl, hr]
  rfl

/-- C4 witness: after `start` (state `st1`), `set_manual_point(3, 7.5)` returns
`next_index = 4` and slot 3 of pellet 1 holds 7.5. -/
theorem set_manual_point_advance_witness :
    (api_set_point 3 (some (15 / 2)) st1).1 = .ok 4 ∧
    ((api_set_point 3 (some (15 / 2)) st1).2.store 1).map (slotGet 3) =
      some (some (15 / 2)) := by
  have h := set_manual_point_advance 3 1 (15 / 2) 1 st1 rfl rfl rfl (by omega) (by omega)
  constructor
  · rw [h.1]
    norm_num
  · obtain ⟨r2, hr2, hs⟩ := h.2 {} rfl
    rw [hr2, Option.map_some', hs]

/-- C1: for an ACTIVE session on pellet `id` with `next_index = n ≤ 5`,
one queue-drain step of `poll_status` persists the device value `v` into
slot `n` of pellet `id` and transitions to `next_index = n+1` (still active)
when `n+1 ≤ 5`, or finalizes pellet `id` and resets the session to IDLE when
`n+1 > 5` (that is, when `n = 5`). -/
theorem apply_auto_slot_and_transition (t : String) (v : ℚ) (id : Nat) (n : Int)
    (st : AppState) (hact : st.session.active = true)
    (hpid : st.session.pellet_id = some id) (hn : st.session.next_index = n)
    (h1 : 1 ≤ n) (h5 : n ≤ 5) :
    statusStep t st v =
      (if n = 5 then
        { session := Session.init,
          store := finalize_pellet id (save_point id n v st.store) }
      else
        { session := { active := true, pellet_id := some id, next_index := n + 1,
                       last_value := some v, last_time := some t },
          store := save_point id n v st.store }) ∧
    ∀ r, st.store id = some r →
      ∃ r2, (statusStep t st v).store id = some r2 ∧ slotGet n r2 = some v := by
  obtain ⟨⟨a, p0, ni, lv, lt0⟩, store⟩ := st
  simp only at hact hpid hn
  subst hact hpid hn
  have hstep : statusStep t ⟨⟨true, some id, ni, lv, lt0⟩, store⟩ v =
      if ni + 1 > 5 then
        { session := Session.init, store := finalize_pellet id (save_point id ni v store) }
      else
        { session := { active := true, pellet_id := some id, next_index := ni + 1,
                       last_value := some v, last_time := some t },
          store := save_point id ni v store } := by
    show (if true = true ∧ ni ≤ 5 then
            if ni + 1 > 5 then
              ({ session := Session.init,
                 store := finalize_pellet id (save_point id ni v store) } : AppState)
            else
              { session := { active := true, pellet_id := some id, next_index := ni + 1,
                             last_value := some v, last_time := some t },
                store := save_point id ni v store }
          else _) = _
    rw [if_pos ⟨rfl, h5⟩]
  constructor
  · rw [hstep]
    by_cases h5eq : ni = 5
    · subst h5eq
      rw [if_pos (by omega), if_pos rfl]
    · rw [if_neg (by omega), if_neg h5eq]
  · intro r hr
    dsimp only at hr
    rw [hstep]
    by_cases hgt : ni + 1 > 5
    · rw [if_pos hgt]
      refine ⟨aggregate (setSlot ni v r), ?_, ?_⟩
      · show finalize_pellet id (save_point id ni v store) id = _
        unfold finalize_pellet save_point
        rw [if_pos rfl, if_pos rfl, hr]
        rfl
      · rw [slotGet_aggregate, slotGet_setSlot ni v r h1 h5]
    · rw [if_neg hgt]
      refine ⟨setSlot ni v r, ?_, slotGet_setSlot ni v r h1 h5⟩
      show save_point id ni v store id = _
      unfold save_point
      rw [if_pos rfl, hr]
      rfl

/-- C1 witness: one drained value in state `st1` fills slot 1 and advances to
`next_index = 2`. -/
theorem apply_auto_slot_and_transition_witness :
    (statusStep "now" st1 (1 / 2)).session.next_index = 2 ∧
    ((statusStep "now" st1 (1 / 2)).store 1).map (slotGet 1) = some (some (1 / 2)) := by
  have h := apply_auto_slot_and_transition "now" (1 / 2) 1 1 st1 rfl rfl rfl
    (by omega) (by omega)
  constructor
  · rw [h.1, if_neg (by omega)]
    rfl
  · obtain ⟨r2, hr2, hs⟩ := h.2 {} rfl
    rw [hr2, Option.map_some', hs]

/-- C10 (implicit): every value drained by `poll_status` while no sample is
active, or while the active sample's `next_index` exceeds 5, is consumed and
discarded: the whole queue is drained and reported in the `applied` list, the
record store is completely unchanged (no slot written), the session's
`active`/`pellet_id`/`next_index` are unchanged (so nothing is retained for a
later-started sample), yet `last_value`/`last_time` are updated to the last
drained value and the poll time. -/
theorem drain_unassigned_discards (q : List ℚ) (t : String) (st : AppState)
    (h : st.session.active = false ∨ 5 < st.session.next_index) :
    (api_status q t st).2 = q ∧
    (api_status q t st).1.store = st.store ∧
    (api_status q t st).1.session.active = st.session.active ∧
    (api_status q t st).1.session.pellet_id = st.session.pellet_id ∧
    (api_status q t st).1.session.next_index = st.session.next_index ∧
    (api_status q t st).1.session.last_value =
      (if q = [] then st.session.last_value else q.getLast?) ∧
    (api_status q t st).1.session.last_time =
      (if q = [] then st.session.last_time else some t) := by
  have hf := foldl_statusStep_no_assign q t st h
  unfold api_status
  by_cases hq : q = []
  · rw [if_pos hq] at hf
    rw [hf, if_pos hq, if_pos hq]
    exact ⟨rfl, rfl, rfl, rfl, rfl, rfl, rfl⟩
  · rw [if_neg hq] at hf
    rw [hf, if_neg hq, if_neg hq]
    exact ⟨rfl, rfl, rfl, rfl, rfl, rfl, rfl⟩

/-- C10 witness: one value drained in the idle state `st0`. -/
theorem drain_unassigned_discards_witness :
    (api_status [9 / 10] "tm" st0).2 = [9 / 10] ∧
    (api_status [9 / 10] "tm" st0).1.store = st0.store ∧
    (api_status [9 / 10] "tm" st0).1.session.active = false ∧
    (api_status [9 / 10] "tm" st0).1.session.last_value = some (9 / 10) := by
  obtain ⟨c1, c2, c3, _, _, c6, _⟩ :=
    drain_unassigned_discards [9 / 10] "tm" st0 (Or.inl rfl)
  refine ⟨c1, c2, ?_, ?_⟩
  · rw [c3]; rfl
  · rw [c6, if_neg (by simp)]; rfl

/-- C7: finalize computes the aggregates over exactly the non-empty slots
(average = sum/count, min and max over present values; all NULL when every
slot is empty) and sets the completion flag, leaving the slot columns
themselves unchanged; and the end-to-end scenario: starting a pellet and
draining the five device values 1..5 finalizes it with avg=3, min=1, max=5,
done. -/
theorem finalize_aggregates_spec (r : Pellet) :
    (aggregate r).done = true ∧
    (aggregate r).min = (presentVals r).min? ∧
    (aggregate r).max = (presentVals r).max? ∧
    (aggregate r).avg = (if presentVals r = [] then none
      else some ((presentVals r).sum / ((presentVals r).length : ℚ))) ∧
    presentVals (aggregate r) = presentVals r ∧
    ((api_status [1, 2, 3, 4, 5] "tt" st1).1.store 1).map aggView =
      some (some 3, some 1, some 5, true) := by
  refine ⟨?_, ?_, ?_, ?_, ?_, ?_⟩
  · unfold aggregate
    by_cases hp : presentVals r = [] <;> simp [hp]
  · unfold aggregate
    by_cases hp : presentVals r = [] <;> simp [hp]
  · unfold aggregate
    by_cases hp : presentVals r = [] <;> simp [hp]
  · unfold aggregate
    by_cases hp : presentVals r = [] <;> simp [hp]
  · unfold aggregate
    split_ifs <;> rfl
  · have h1 : (api_status [1, 2, 3, 4, 5] "tt" st1).1.store 1 =
        some (aggregate ⟨some 1, some 2, some 3, some 4, some 5, none, none, none,
          false⟩) := rfl
    have h2 : presentVals ⟨some 1, some 2, some 3, some 4, some 5, none, none, none,
        false⟩ = [1, 2, 3, 4, 5] := rfl
    rw [h1, Option.map_some']
    unfold aggregate
    rw [h2, if_neg (by simp)]
    unfold aggView
    rw [show ([1, 2, 3, 4, 5] : List ℚ).min? = some 1 from by decide,
        show ([1, 2, 3, 4, 5] : List ℚ).max? = some 5 from by decide]
    norm_num [List.sum_cons]

/-- C3: `parse(s)` returns "no value" (None), rather than raising, exactly
when the input contains no numeric token or the extracted value lies outside
the plausibility bound [0, 50] (a matched token of this regex always converts
to a number, so a failed conversion never arises); in particular
`parse("ERR") = None` and `parse("") = None`. -/
theorem parse_none_characterization (s : String) :
    (parse_value s = none ↔
      firstTok s.data = none ∨
        ∃ tok, firstTok s.data = some tok ∧
          ¬(0 ≤ tokVal tok ∧ tokVal tok ≤ 50)) ∧
    parse_value "ERR" = none ∧ parse_value "" = none := by
  refine ⟨?_, by decide, by decide⟩
  rw [parse_value_eq]
  cases h : firstTok s.data with
  | none => simp
  | some tok =>
    show (if 0 ≤ tokVal tok ∧ tokVal tok ≤ 50 then some (tokVal tok) else none) =
        none ↔ _
    by_cases hb : 0 ≤ tokVal tok ∧ tokVal tok ≤ 50
    · rw [if_pos hb]
      constructor
      · intro hc; exact Option.noConfusion hc
      · rintro (hc | ⟨tok2, htok2, hb2⟩)
        · exact Option.noConfusion hc
        · rw [Option.some_inj] at htok2
          exact absurd (htok2 ▸ hb) hb2
    · rw [if_neg hb]
      exact ⟨fun _ => Or.inr ⟨tok, rfl, hb⟩, fun _ => rfl⟩

/-- C2 counterexample: the input `"100"` contains the numeric token `100`
(its first and only one), yet `parse_value` returns None instead of that
token's value, because of the plausibility bound. -/
theorem parse_first_token_counterexample :
    firstTok (String.data "100") = some (String.data "100") ∧
    tokVal (String.data "100") = 100 ∧
    parse_value "100" ≠ some 100 ∧
    parse_value "100" = none := by
  have hv : tokVal (String.data "100") = 100 := by
    have h0 : tokVal (String.data "100") = ((100 : Nat) : ℚ) := rfl
    rw [h0]; norm_num
  have hp : parse_value "100" = none := by
    rw [parse_value_eq,
      show firstTok (String.data "100") = some (String.data "100") from by decide]
    show (if 0 ≤ tokVal (String.data "100") ∧ tokVal (String.data "100") ≤ 50
          then some (tokVal (String.data "100")) else none) = none
    have hnb : ¬(0 ≤ tokVal (String.data "100") ∧ tokVal (String.data "100") ≤ 50) := by
      rw [hv]; norm_num
    rw [if_neg hnb]
  exact ⟨by decide, hv, by rw [hp]; exact fun hc => Option.noConfusion hc, hp⟩

/-- C2 (amended): for every input string containing a numeric token,
`parse_value` returns the value of the first such token, ignoring all
surrounding non-numeric text, provided that value lies within the
plausibility bound [0, 50]; out-of-bound tokens yield None (see the
counterexample). -/
theorem parse_first_token_in_bounds (s : String) (tok : List Char)
    (h : firstTok s.data = some tok) (h0 : 0 ≤ tokVal tok)
    (h50 : tokVal tok ≤ 50) :
    parse_value s = some (tokVal tok) := by
  rw [parse_value_eq, h]
  show (if 0 ≤ tokVal tok ∧ tokVal tok ≤ 50 then some (tokVal tok) else none) =
    some (tokVal tok)
  rw [if_pos ⟨h0, h50⟩]

/-- C2 witness: `parse_value " 12 mm"` extracts 12 from surrounding noise. -/
theorem parse_first_token_in_bounds_witness :
    parse_value " 12 mm" = some 12 := by
  have hv : tokVal (String.data "12") = 12 := by
    have h0 : tokVal (String.data "12") = ((12 : Nat) : ℚ) := rfl
    rw [h0]; norm_num
  rw [parse_first_token_in_bounds " 12 mm" (String.data "12") (by decide)
    (by rw [hv]; norm_num) (by rw [hv]; norm_num), hv]
